import Mathlib

/-!
Verification development for the murmduke3d audio subsystem
(`src/i_picosound.c`, `src/i_music.c`).

The repository contains two largely parallel revisions of the sound driver;
definitions suffixed `_v1` embed the first revision (the one with the
in-mixer refill cap and the type-9 VOC quirk fix), definitions suffixed
`_v2` embed the second revision.  Shared code that is byte-identical in
both revisions (slot allocation, handle encoding, the callback ring,
`stop_voice`, the PCM copy path) is embedded once without a suffix.

Machine integers are modelled as `Nat`/`Int` with explicit `% 2^32`
where 32-bit wraparound matters (the 16.16 fixed-point playback offset).
The contents of a voice's local decode buffer never influence control
flow, volume handling or any verified property, so the embedding keeps
the buffer's valid-sample count and records the sequence of read indices
instead of the decoded PCM values; the ADPCM predictor/step state, the
source cursor and every size computation are carried exactly as in C.
-/

namespace MurmDuke

/-- 2^32, the modulus of `uint32_t` arithmetic. -/
def u32 : Nat := 4294967296

/-- Integer clamp used by the ADPCM decoders. -/
def clampI (lo hi x : Int) : Int :=
  if x < lo then lo else if x > hi then hi else x

--=============================================================================
-- Deferred callback ring buffer (identical in both driver revisions)
--=============================================================================

/-- `MAX_PENDING_CALLBACKS` in `i_picosound.c`. -/
def maxPendingCallbacks : Nat := 32

/-- The pending-callback ring buffer: `pending_callbacks` array plus
`pending_callback_head` / `pending_callback_tail`. -/
structure CBQueue where
  entries : List Nat
  head : Nat
  tail : Nat
deriving Repr, DecidableEq

/-- `queue_callback` from `i_picosound.c`: computes the advanced tail and
stores the value only when that would not collide with the head; a full
ring drops the offered value and leaves everything unchanged. -/
def queue_callback (q : CBQueue) (v : Nat) : CBQueue :=
  let nextTail := (q.tail + 1) % maxPendingCallbacks
  if nextTail ≠ q.head then
    { q with entries := q.entries.set q.tail v, tail := nextTail }
  else q

--=============================================================================
-- Voice slot allocation (identical in both driver revisions)
--=============================================================================

/-- The per-slot data `find_voice_slot` inspects. -/
structure SlotInfo where
  active : Bool
  priority : Int
deriving Repr, DecidableEq

/-- Junk slot used as the default of positional lookups. -/
def SlotInfo.dflt : SlotInfo := ⟨true, 0⟩

/-- The first scan of `find_voice_slot`: index of the first inactive slot. -/
def firstInactiveSlot : List SlotInfo → Option Nat
  | [] => none
  | s :: rest =>
    if s.active = false then some 0
    else (firstInactiveSlot rest).map (· + 1)

/-- The second scan of `find_voice_slot`: running minimum with a strict
comparison against the current bound (initially the requesting priority),
so the first slot attaining the overall minimum wins. -/
def stealScan : List SlotInfo → Int → Option Nat
  | [], _ => none
  | s :: rest, p =>
    if s.priority < p then
      match stealScan rest s.priority with
      | some j => some (j + 1)
      | none => some 0
    else (stealScan rest p).map (· + 1)

/-- `find_voice_slot` from `i_picosound.c`: first inactive slot, else the
lowest-priority slot strictly below the requesting priority, else none
(`-1` in C). -/
def find_voice_slot (slots : List SlotInfo) (priority : Int) : Option Nat :=
  match firstInactiveSlot slots with
  | some i => some i
  | none => stealScan slots priority

--=============================================================================
-- Play handles (identical in both driver revisions)
--=============================================================================

/-- Handle construction in `I_PicoSound_PlayVOC` / `PlayWAV` / `PlayRaw`:
`(next_handle++ % 10000) * NUM_SOUND_CHANNELS + slot + 1`.
`numChannels` is the compile-time `NUM_SOUND_CHANNELS`. -/
def make_handle (numChannels gen slot : Nat) : Int :=
  ((gen % 10000) * numChannels + slot + 1 : Nat)

/-- `handle_to_voice` from `i_picosound.c`: rejects non-positive handles,
decodes the slot index as `(handle - 1) % NUM_SOUND_CHANNELS` and checks
only the slot's `active` flag. -/
def handle_to_voice (numChannels : Nat) (handle : Int) (active : Nat → Bool) :
    Option Nat :=
  if handle ≤ 0 then none
  else if active ((handle - 1).toNat % numChannels) then
    some ((handle - 1).toNat % numChannels)
  else none

/-- `I_PicoSound_VoicePlaying`: `slot >= 0 && voices[slot].active`; the
activity test is already part of `handle_to_voice`. -/
def voicePlaying (numChannels : Nat) (handle : Int) (active : Nat → Bool) :
    Bool :=
  (handle_to_voice numChannels handle active).isSome

--=============================================================================
-- Voice state
--=============================================================================

/-- One slot of the `voices[NUM_SOUND_CHANNELS]` array (`voice_t`).

The source pointers `data` / `data_end` / `loop_start` are embedded as
indices `pos` / `endPos` / `loopStart` into the byte list `src` (the
sample-data region in PSRAM).  `bufSize` is `buffer_size`, the number of
valid samples in the 256-sample local decode buffer.  The ADPCM decoder
state covers both revisions: revision 1 keeps an unsigned 8-bit reference
in `adpcmPred` and a step size (with `-1` meaning "uninitialised") in
`adpcmStep`; revision 2 keeps a signed 16-bit predictor in `adpcmPred`
and an IMA step index in `adpcmStep`. -/
structure Voice where
  src : List Nat
  pos : Nat
  endPos : Nat
  loopStart : Option Nat
  bufSize : Nat
  offset : Nat
  step : Nat
  leftVol : Nat
  rightVol : Nat
  priority : Int
  active : Bool
  looping : Bool
  is16bit : Bool
  isSigned : Bool
  isAdpcm : Bool
  adpcmPred : Int
  adpcmStep : Int
  callbackVal : Nat
deriving Repr, DecidableEq

--=============================================================================
-- Creative ADPCM decoder, revision 1 (DOSBox table algorithm)
--=============================================================================

/-- `adpcm4_scale_map` (64 entries). -/
def adpcm4_scale_map : List Int :=
  [0,  1,  2,  3,  4,  5,  6,  7,  0,  -1,  -2,  -3,  -4,  -5,  -6,  -7,
   1,  3,  5,  7,  9, 11, 13, 15, -1,  -3,  -5,  -7,  -9, -11, -13, -15,
   2,  6, 10, 14, 18, 22, 26, 30, -2,  -6, -10, -14, -18, -22, -26, -30,
   4, 12, 20, 28, 36, 44, 52, 60, -4, -12, -20, -28, -36, -44, -52, -60]

/-- `adpcm4_adjust_map` (64 entries). -/
def adpcm4_adjust_map : List Int :=
  [  0,  0,  0,  0,  0, 16, 16, 16,
     0,  0,  0,  0,  0, 16, 16, 16,
   -16,  0,  0,  0,  0, 16, 16, 16,
   -16,  0,  0,  0,  0, 16, 16, 16,
   -16,  0,  0,  0,  0, 16, 16, 16,
   -16,  0,  0,  0,  0, 16, 16, 16,
   -16,  0,  0,  0,  0,  0,  0,  0,
   -16,  0,  0,  0,  0,  0,  0,  0]

/-- `decode_creative_adpcm_nibble` from revision 1: returns the updated
(reference, stepsize) pair.  The decoded output sample equals the updated
reference and is not tracked separately. -/
def decode_creative_adpcm_nibble (nibble : Nat) (ref stepsize : Int) :
    Int × Int :=
  let i := clampI 0 63 ((nibble : Int) + stepsize)
  let stepsize' := clampI 0 48 (stepsize + adpcm4_adjust_map.getD i.toNat 0)
  let ref' := clampI 0 255 (ref + adpcm4_scale_map.getD i.toNat 0)
  (ref', stepsize')

/-- The revision-1 ADPCM decode loop of `decompress_buffer`: high nibble
first, two samples per byte, stopping at 256 samples (possibly mid-byte)
or at the end of the source.  `fuel` is the number of source bytes left
(`endPos - pos`), so the recursion mirrors `while (... && v->data <
v->data_end)`.  Returns (pos, reference, stepsize, samples decoded). -/
def adpcmLoop_v1 (src : List Nat) :
    Nat → Nat → Int → Int → Nat → Nat × Int × Int × Nat
  | 0, pos, ref, stp, samples => (pos, ref, stp, samples)
  | fuel + 1, pos, ref, stp, samples =>
    if samples ≥ 256 then (pos, ref, stp, samples)
    else
      let b := src.getD pos 0
      let r1 := decode_creative_adpcm_nibble (b / 16 % 16) ref stp
      if samples + 1 ≥ 256 then (pos + 1, r1.1, r1.2, samples + 1)
      else
        let r2 := decode_creative_adpcm_nibble (b % 16) r1.1 r1.2
        adpcmLoop_v1 src fuel (pos + 1) r2.1 r2.2 (samples + 2)

--=============================================================================
-- Creative ADPCM decoder, revision 2 (IMA-style tables)
--=============================================================================

/-- `adpcm_index_table` (8 entries). -/
def adpcm_index_table : List Int := [-1, -1, -1, -1, 2, 4, 6, 8]

/-- `adpcm_step_table` (89 entries). -/
def adpcm_step_table : List Int :=
  [7, 8, 9, 10, 11, 12, 13, 14, 16, 17,
   19, 21, 23, 25, 28, 31, 34, 37, 41, 45,
   50, 55, 60, 66, 73, 80, 88, 97, 107, 118,
   130, 143, 157, 173, 190, 209, 230, 253, 279, 307,
   337, 371, 408, 449, 494, 544, 598, 658, 724, 796,
   876, 963, 1060, 1166, 1282, 1411, 1552, 1707, 1878, 2066,
   2272, 2499, 2749, 3024, 3327, 3660, 4026, 4428, 4871, 5358,
   5894, 6484, 7132, 7845, 8630, 9493, 10442, 11487, 12635, 13899,
   15289, 16818, 18500, 20350, 22385, 24623, 27086, 29794, 32767]

/-- `decode_adpcm_nibble` from revision 2: returns the updated
(predictor, step index) pair. -/
def decode_adpcm_nibble (nibble : Nat) (pred : Int) (index : Int) :
    Int × Int :=
  let step := adpcm_step_table.getD index.toNat 0
  let diff := step / 8
  let diff := if nibble % 2 = 1 then diff + step / 4 else diff
  let diff := if nibble / 2 % 2 = 1 then diff + step / 2 else diff
  let diff := if nibble / 4 % 2 = 1 then diff + step else diff
  let diff := if nibble / 8 % 2 = 1 then -diff else diff
  let pred' := clampI (-32768) 32767 (pred + diff)
  let index' := clampI 0 88 (index + adpcm_index_table.getD (nibble % 8) 0)
  (pred', index')

/-- The revision-2 ADPCM decode loop of `decompress_buffer`: low nibble
first, no initialisation byte.  Returns (pos, predictor, index, samples
decoded). -/
def adpcmLoop_v2 (src : List Nat) :
    Nat → Nat → Int → Int → Nat → Nat × Int × Int × Nat
  | 0, pos, pred, idx, samples => (pos, pred, idx, samples)
  | fuel + 1, pos, pred, idx, samples =>
    if samples ≥ 256 then (pos, pred, idx, samples)
    else
      let b := src.getD pos 0
      let r1 := decode_adpcm_nibble (b % 16) pred idx
      if samples + 1 ≥ 256 then (pos + 1, r1.1, r1.2, samples + 1)
      else
        let r2 := decode_adpcm_nibble (b / 16 % 16) r1.1 r1.2
        adpcmLoop_v2 src fuel (pos + 1) r2.1 r2.2 (samples + 2)

--=============================================================================
-- decompress_buffer
--=============================================================================

/-- The PCM branch of `decompress_buffer` (byte-identical in both
revisions): computes the number of available source samples, copies at
most 256 of them (converting to signed 8-bit; the converted values do
not feed back into any state) and advances the source cursor by the
bytes consumed.  When nothing is available the buffer is marked empty
and the cursor is left alone. -/
def decompress_pcm (v : Voice) : Voice :=
  let available := if v.is16bit then (v.endPos - v.pos) / 2 else v.endPos - v.pos
  let toCopy := min available 256
  if toCopy = 0 then { v with bufSize := 0 }
  else
    { v with
      pos := v.pos + (if v.is16bit then toCopy * 2 else toCopy),
      bufSize := toCopy }

/-- The decode part of revision 1's `decompress_buffer` (everything after
the end-of-data / loop-rewind check).  For ADPCM, a negative step means
the next source byte is the raw initial reference sample. -/
def decompress_decode_v1 (v : Voice) : Voice :=
  if v.isAdpcm then
    let v :=
      if v.adpcmStep < 0 ∧ v.pos < v.endPos then
        { v with
          adpcmPred := (v.src.getD v.pos 0 : Int),
          adpcmStep := 0,
          pos := v.pos + 1 }
      else v
    let r := adpcmLoop_v1 v.src (v.endPos - v.pos) v.pos v.adpcmPred v.adpcmStep 0
    { v with pos := r.1, adpcmPred := r.2.1, adpcmStep := r.2.2.1,
             bufSize := r.2.2.2 }
  else decompress_pcm v

/-- The decode part of revision 2's `decompress_buffer`. -/
def decompress_decode_v2 (v : Voice) : Voice :=
  if v.isAdpcm then
    let r := adpcmLoop_v2 v.src (v.endPos - v.pos) v.pos v.adpcmPred v.adpcmStep 0
    { v with pos := r.1, adpcmPred := r.2.1, adpcmStep := r.2.2.1,
             bufSize := r.2.2.2 }
  else decompress_pcm v

/-- `decompress_buffer`, revision 1.  A cursor past the end mirrors the
`data_end < data` pointer-validity bailout; a cursor exactly at the end
either rewinds to `loop_start` (resetting the ADPCM state to its
initial-play values `pred = 128`, `step = -1`) when the voice loops, or
yields an empty buffer. -/
def decompress_buffer_v1 (v : Voice) : Voice :=
  if v.endPos < v.pos then { v with bufSize := 0 }
  else if v.endPos ≤ v.pos then
    match v.loopStart with
    | some ls =>
      if v.looping then
        decompress_decode_v1
          { v with pos := ls,
                   adpcmPred := if v.isAdpcm then 128 else v.adpcmPred,
                   adpcmStep := if v.isAdpcm then -1 else v.adpcmStep }
      else { v with bufSize := 0 }
    | none => { v with bufSize := 0 }
  else decompress_decode_v1 v

/-- `decompress_buffer`, revision 2.  The loop rewind resets the ADPCM
state to its initial-play values `pred = 0`, `index = 0`. -/
def decompress_buffer_v2 (v : Voice) : Voice :=
  if v.endPos < v.pos then { v with bufSize := 0 }
  else if v.endPos ≤ v.pos then
    match v.loopStart with
    | some ls =>
      if v.looping then
        decompress_decode_v2
          { v with pos := ls,
                   adpcmPred := if v.isAdpcm then 0 else v.adpcmPred,
                   adpcmStep := if v.isAdpcm then 0 else v.adpcmStep }
      else { v with bufSize := 0 }
    | none => { v with bufSize := 0 }
  else decompress_decode_v2 v

/-- `stop_voice` from `i_picosound.c` (identical in both revisions),
applied to the indexed slot: marks the voice inactive and returns the
list of tokens handed to `queue_callback` — the stored token, exactly
when the voice was active, the caller asked for a callback, and the
token is nonzero. -/
def stop_voice (v : Voice) (doCallback : Bool) : Voice × List Nat :=
  ({ v with active := false },
   if v.active = true ∧ doCallback = true ∧ v.callbackVal ≠ 0 then
     [v.callbackVal]
   else [])

--=============================================================================
-- mix_audio_buffer, per-voice inner loop
--=============================================================================

/-- State and event record of one voice's pass through
`mix_audio_buffer`.  `offsetEnd` is the loop-local `offset_end`
(`buffer_size * 65536`); `dcalls` is revision 1's `decompress_calls`
counter; `refills` counts actual `decompress_buffer` invocations;
`reads` records, in order, each local-buffer read as the pair
(index read, `buffer_size` in effect at that read); `callbacks` records
the tokens handed to `queue_callback`; `finished` is set exactly when
the empty-refill finish branch runs. -/
structure MixOut where
  v : Voice
  offsetEnd : Nat
  dcalls : Nat
  refills : Nat
  reads : List (Nat × Nat)
  callbacks : List Nat
  finished : Bool
deriving Repr, DecidableEq

/-- Revision 1's inner sample loop of `mix_audio_buffer` for one voice.
Each iteration: a defensive index check (deactivate and stop on
overflow), one buffer read, the 32-bit fixed-point advance, and on
crossing `offset_end` a refill guarded by the 20-call safety cap; an
empty refill queues the completion callback (nonzero tokens only) and
deactivates the voice, and a refill that leaves the offset beyond the
new end clamps the offset to 0.  The mixed PCM output is not tracked:
it never feeds back into voice state. -/
def mixLoop_v1 (fuel : Nat) (st : MixOut) : MixOut :=
  match fuel with
  | 0 => st
  | fuel + 1 =>
    let v := st.v
    let bufIdx := v.offset / 65536
    if bufIdx ≥ 256 then
      { st with v := { v with active := false } }
    else
      let st := { st with reads := st.reads ++ [(bufIdx, v.bufSize)] }
      let newOffset := (v.offset + v.step) % u32
      if newOffset ≥ st.offsetEnd then
        let off2 := newOffset - st.offsetEnd
        if st.dcalls + 1 > 20 then
          { st with v := { v with active := false, offset := off2 },
                    dcalls := st.dcalls + 1 }
        else
          let v' := decompress_buffer_v1 { v with offset := off2 }
          let oe := v'.bufSize * 65536
          if oe = 0 then
            { st with
              v := { v' with active := false },
              offsetEnd := oe,
              dcalls := st.dcalls + 1,
              refills := st.refills + 1,
              callbacks := st.callbacks ++
                (if v'.callbackVal ≠ 0 then [v'.callbackVal] else []),
              finished := true }
          else
            let v' := if v'.offset ≥ oe then { v' with offset := 0 } else v'
            mixLoop_v1 fuel
              { st with v := v', offsetEnd := oe,
                        dcalls := st.dcalls + 1, refills := st.refills + 1 }
      else mixLoop_v1 fuel { st with v := { v with offset := newOffset } }

/-- Revision 1's per-voice preamble of `mix_audio_buffer`: inactive or
empty-buffered voices are skipped entirely; `offset_end` is computed
from the current buffer size, and a defensive pre-loop check resets an
out-of-range offset to 0 before the sample loop runs. -/
def mixVoice_v1 (v : Voice) (sampleCount : Nat) : MixOut :=
  if v.active = false ∨ v.bufSize = 0 then
    ⟨v, 0, 0, 0, [], [], false⟩
  else
    let oe := v.bufSize * 65536
    let v := if v.offset / 65536 ≥ 256 then { v with offset := 0 } else v
    mixLoop_v1 sampleCount ⟨v, oe, 0, 0, [], [], false⟩

/-- Revision 2's inner sample loop of `mix_audio_buffer` for one voice.
No defensive index check, no refill cap; after a refill, an empty buffer
or an offset still at or past the new end queues the completion
callback (nonzero tokens only) and deactivates the voice. -/
def mixLoop_v2 (fuel : Nat) (st : MixOut) : MixOut :=
  match fuel with
  | 0 => st
  | fuel + 1 =>
    let v := st.v
    let bufIdx := v.offset / 65536
    let st := { st with reads := st.reads ++ [(bufIdx, v.bufSize)] }
    let newOffset := (v.offset + v.step) % u32
    if newOffset ≥ st.offsetEnd then
      let off2 := newOffset - st.offsetEnd
      let v' := decompress_buffer_v2 { v with offset := off2 }
      let oe := v'.bufSize * 65536
      if oe = 0 ∨ v'.offset ≥ oe then
        { st with
          v := { v' with active := false },
          offsetEnd := oe,
          refills := st.refills + 1,
          callbacks := st.callbacks ++
            (if v'.callbackVal ≠ 0 then [v'.callbackVal] else []),
          finished := true }
      else
        mixLoop_v2 fuel
          { st with v := v', offsetEnd := oe, refills := st.refills + 1 }
    else mixLoop_v2 fuel { st with v := { v with offset := newOffset } }

/-- Revision 2's per-voice preamble of `mix_audio_buffer`. -/
def mixVoice_v2 (v : Voice) (sampleCount : Nat) : MixOut :=
  if v.active = false ∨ v.bufSize = 0 then
    ⟨v, 0, 0, 0, [], [], false⟩
  else
    mixLoop_v2 sampleCount ⟨v, v.bufSize * 65536, 0, 0, [], [], false⟩

--=============================================================================
-- VOC parsing
--=============================================================================

/-- `read_le16` over a byte list. -/
def read_le16 (d : List Nat) (i : Nat) : Nat :=
  d.getD i 0 + 256 * d.getD (i + 1) 0

/-- `read_le32` over a byte list. -/
def read_le32 (d : List Nat) (i : Nat) : Nat :=
  d.getD i 0 + 256 * d.getD (i + 1) 0 + 65536 * d.getD (i + 2) 0 +
    16777216 * d.getD (i + 3) 0

/-- The 20 magic bytes "Creative Voice File\x1a". -/
def vocMagic : List Nat :=
  [67, 114, 101, 97, 116, 105, 118, 101, 32, 86, 111, 105, 99, 101, 32,
   70, 105, 108, 101, 26]

/-- Result of a successful `parse_voc`: sample-data offset and length
within the input, the sample rate, the 16-bit flag and the codec the
parser reports to the caller (`I_PicoSound_PlayVOC` sets
`is_adpcm = (codec == 4)` from it). -/
structure VocInfo where
  sampleOff : Nat
  sampleLen : Nat
  rate : Nat
  is16 : Bool
  codec : Nat
deriving Repr, DecidableEq

/-- The block-walking loop of revision 1's `parse_voc`.  `fuel` bounds
the recursion; callers pass the input length, which always suffices
because every continuing step advances the block cursor by at least 4.
Revision 1 treats a type-9 block's codec 4 as 16-bit signed PCM: it
reports codec 0 and sets the 16-bit flag for `bits == 16 || codec == 4`. -/
def vocBlocks_v1 (d : List Nat) (len : Nat) : Nat → Nat → Option VocInfo
  | 0, _ => none
  | fuel + 1, block =>
    if len ≤ block then none
    else
      let bt := d.getD block 0
      if bt = 0 then none
      else if len < block + 4 then none
      else
        let bs := d.getD (block + 1) 0 + 256 * d.getD (block + 2) 0 +
          65536 * d.getD (block + 3) 0
        let bd := block + 4
        if len < bd + bs then none
        else if bt = 1 then
          if bs < 2 then vocBlocks_v1 d len fuel (bd + bs)
          else
            let codec := d.getD (bd + 1) 0
            if codec ≠ 0 ∧ codec ≠ 4 then vocBlocks_v1 d len fuel (bd + bs)
            else
              some ⟨bd + 2, bs - 2, 1000000 / (256 - d.getD bd 0), false, codec⟩
        else if bt = 9 then
          if bs < 12 then vocBlocks_v1 d len fuel (bd + bs)
          else
            let rate := read_le32 d bd
            let bits := d.getD (bd + 4) 0
            let channels := d.getD (bd + 5) 0
            let codec := read_le16 d (bd + 6)
            if codec ≠ 0 ∧ codec ≠ 4 then vocBlocks_v1 d len fuel (bd + bs)
            else if channels ≠ 1 then vocBlocks_v1 d len fuel (bd + bs)
            else some ⟨bd + 12, bs - 12, rate, bits = 16 ∨ codec = 4, 0⟩
        else vocBlocks_v1 d len fuel (bd + bs)

/-- The block-walking loop of revision 2's `parse_voc`.  Identical to
revision 1 except in a type-9 block: the codec field is passed through
unchanged (so codec 4 is later treated as ADPCM) and the 16-bit flag
comes from the bits byte alone. -/
def vocBlocks_v2 (d : List Nat) (len : Nat) : Nat → Nat → Option VocInfo
  | 0, _ => none
  | fuel + 1, block =>
    if len ≤ block then none
    else
      let bt := d.getD block 0
      if bt = 0 then none
      else if len < block + 4 then none
      else
        let bs := d.getD (block + 1) 0 + 256 * d.getD (block + 2) 0 +
          65536 * d.getD (block + 3) 0
        let bd := block + 4
        if len < bd + bs then none
        else if bt = 1 then
          if bs < 2 then vocBlocks_v2 d len fuel (bd + bs)
          else
            let codec := d.getD (bd + 1) 0
            if codec ≠ 0 ∧ codec ≠ 4 then vocBlocks_v2 d len fuel (bd + bs)
            else
              some ⟨bd + 2, bs - 2, 1000000 / (256 - d.getD bd 0), false, codec⟩
        else if bt = 9 then
          if bs < 12 then vocBlocks_v2 d len fuel (bd + bs)
          else
            let rate := read_le32 d bd
            let bits := d.getD (bd + 4) 0
            let channels := d.getD (bd + 5) 0
            let codec := read_le16 d (bd + 6)
            if codec ≠ 0 ∧ codec ≠ 4 then vocBlocks_v2 d len fuel (bd + bs)
            else if channels ≠ 1 then vocBlocks_v2 d len fuel (bd + bs)
            else some ⟨bd + 12, bs - 12, rate, bits = 16, codec⟩
        else vocBlocks_v2 d len fuel (bd + bs)

/-- `parse_voc`, revision 1: magic check, header-size read, block walk. -/
def parse_voc_v1 (d : List Nat) : Option VocInfo :=
  if d.length < 26 then none
  else if d.take 20 ≠ vocMagic then none
  else
    let hs := read_le16 d 20
    if d.length < hs then none
    else vocBlocks_v1 d d.length d.length hs

/-- `parse_voc`, revision 2. -/
def parse_voc_v2 (d : List Nat) : Option VocInfo :=
  if d.length < 26 then none
  else if d.take 20 ≠ vocMagic then none
  else
    let hs := read_le16 d 20
    if d.length < hs then none
    else vocBlocks_v2 d d.length d.length hs

/-- The ADPCM classification `I_PicoSound_PlayVOC` derives from the
parse result: `bool is_adpcm = (codec == 4)`, with codec 0 on the
raw-fallback path. -/
def vocIsAdpcm (info : Option VocInfo) : Bool :=
  match info with
  | some i => i.codec = 4
  | none => false

--=============================================================================
-- OPL music: voice allocation and Note-On processing (i_music.c)
--=============================================================================

/-- One of the 9 `opl_voice_t` slots. -/
structure OplVoice where
  active : Bool
  channel : Int
  key : Int
  velocity : Int
  timbre : Int
  status : Int
deriving Repr, DecidableEq

/-- Junk voice used as the default of positional lookups. -/
def OplVoice.dflt : OplVoice := ⟨false, 0, 0, 0, 0, 0⟩

/-- The module state `ProcessMIDIEvent` touches for Note-On/Note-Off:
the 9-voice array, the per-channel programmed timbre, and whether a
timbre bank has been loaded (`AL_SetVoiceTimbre` is a no-op without
one). -/
structure OplState where
  voices : List OplVoice
  chanTimbre : List Int
  timbreLoaded : Bool
deriving Repr, DecidableEq

/-- Index of the first voice satisfying a predicate (the scan pattern
of `AllocateVoice` and `FindVoice`). -/
def firstIdxWhere (p : OplVoice → Bool) : List OplVoice → Option Nat
  | [] => none
  | v :: rest =>
    if p v then some 0 else (firstIdxWhere p rest).map (· + 1)

/-- The patch a (channel, key) pair maps to: percussion (channel 9)
uses `key + 128`, melodic channels use the channel's programmed timbre. -/
def targetTimbre (st : OplState) (ch key : Int) : Int :=
  if ch = 9 then key + 128 else st.chanTimbre.getD ch.toNat 0

/-- `FindVoice` from `i_music.c`: first active voice on (channel, key). -/
def findVoice (st : OplState) (ch key : Int) : Option Nat :=
  firstIdxWhere
    (fun v => v.active && v.channel == ch && v.key == key) st.voices

/-- The slot-selection logic of `AllocateVoice`: an inactive voice with
the matching timbre, else any inactive voice, else steal preferring the
same channel, then percussion (channel 9), then voice 0. -/
def allocateVoiceIdx (st : OplState) (ch key : Int) : Nat :=
  let tt := targetTimbre st ch key
  match firstIdxWhere (fun v => !v.active && v.timbre == tt) st.voices with
  | some i => i
  | none =>
    match firstIdxWhere (fun v => !v.active) st.voices with
    | some i => i
    | none =>
      match firstIdxWhere (fun v => v.channel == ch) st.voices with
      | some i => i
      | none =>
        match firstIdxWhere (fun v => v.channel == 9) st.voices with
        | some i => i
        | none => 0

/-- `AL_NoteOff` restricted to the voice-state fields: clears the
key-on status and the active flag (the register writes, driven by the
stored pitch, go to the OPL chip and never feed back). -/
def alNoteOff (st : OplState) (i : Nat) : OplState :=
  match st.voices.getD i OplVoice.dflt with
  | v =>
    if i < st.voices.length ∧ v.active = true then
      { st with voices := st.voices.set i { v with status := 0, active := false } }
    else st

/-- `AL_NoteOn` restricted to the voice-state fields: stores key,
channel, velocity, sets the key-on status bit (`NOTE_ON = 0x2000`) and
the active flag, then `AL_SetVoiceTimbre` updates the stored timbre to
the target patch when a timbre bank is loaded. -/
def alNoteOnUpd (st : OplState) (i : Nat) (ch key vel : Int) : OplState :=
  let v := st.voices.getD i OplVoice.dflt
  let v := { v with key := key, channel := ch, velocity := vel,
                    status := 8192, active := true }
  let v := if st.timbreLoaded then { v with timbre := targetTimbre st ch key }
           else v
  { st with voices := st.voices.set i v }

/-- `AllocateVoice` including its steal side effect: when both inactive
scans fail, the chosen voice is first keyed off. -/
def allocateVoice (st : OplState) (ch key : Int) : Nat × OplState :=
  let tt := targetTimbre st ch key
  match firstIdxWhere (fun v => !v.active && v.timbre == tt) st.voices with
  | some i => (i, st)
  | none =>
    match firstIdxWhere (fun v => !v.active) st.voices with
    | some i => (i, st)
    | none =>
      let j := allocateVoiceIdx st ch key
      (j, alNoteOff st j)

/-- The `MIDI_EVENT_NOTE_ON` arm of `ProcessMIDIEvent`: velocity 0 is a
note-off routed through `FindVoice`; a positive velocity goes straight
to `AllocateVoice` followed by `AL_NoteOn` on the chosen slot. -/
def processNoteOn (st : OplState) (ch key vel : Int) : OplState :=
  if vel = 0 then
    match findVoice st ch key with
    | some i => alNoteOff st i
    | none => st
  else
    let r := allocateVoice st ch key
    alNoteOnUpd r.2 r.1 ch key vel

--=============================================================================
-- Concrete fixtures used by witnesses and counterexamples
--=============================================================================

/-- A zeroed voice slot, as after `I_PicoSound_Init`'s memset. -/
def Voice.blank : Voice :=
  ⟨[], 0, 0, none, 0, 0, 0, 0, 0, 0, false, false, false, false, false, 0, 0, 0⟩

/-- A looping 8-bit voice whose loop region is empty: produced by
`I_PicoSound_PlayRaw` with `loopstart = data + length` (the loop-start
pointer is caller-supplied), after its source has been consumed. -/
def vEmptyLoop : Voice :=
  { Voice.blank with
    active := true, looping := true, loopStart := some 0,
    bufSize := 1, step := 65536, callbackVal := 7 }

/-- A looping 2-byte 8-bit source playing at twice the buffer rate, so
every output sample exhausts the local buffer and triggers a refill. -/
def vTinyLoop : Voice :=
  { Voice.blank with
    src := [1, 2], endPos := 2,
    active := true, looping := true, loopStart := some 0,
    bufSize := 2, step := 131072 }

/-- A plain active 4-sample 8-bit voice mid-playback. -/
def vPlain : Voice :=
  { Voice.blank with
    src := [10, 20, 30, 40], pos := 4, endPos := 4,
    active := true, bufSize := 4, step := 30000, offset := 70000,
    callbackVal := 3 }

/-- A looping 3-byte 8-bit voice whose source cursor has just reached
the end of its data, with the loop region covering the whole sample. -/
def vLoopEnd : Voice :=
  { Voice.blank with
    src := [1, 2, 3], pos := 3, endPos := 3,
    active := true, looping := true, loopStart := some 0,
    bufSize := 3, step := 65536, callbackVal := 5 }

/-- A 44-byte VOC file whose single sound block is type 9 with
rate 11025, bits 16, one channel, codec 4, and two sample bytes. -/
def vocType9Codec4 : List Nat :=
  vocMagic ++ [26, 0, 0, 0, 0, 0] ++
    [9, 14, 0, 0] ++ [17, 43, 0, 0, 16, 1, 4, 0, 0, 0, 0, 0, 52, 18]

/-- Nine OPL voices: voice 0 currently sounding (channel 0, key 60),
the rest idle and unprogrammed; channel 0 programmed to timbre 0,
timbre bank loaded. -/
def oplRepeatedNoteOn : OplState :=
  ⟨⟨true, 0, 60, 100, 0, 8192⟩ ::
     List.replicate 8 ⟨false, 0, 0, 0, -1, 0⟩,
   List.replicate 16 0, true⟩

end MurmDuke

namespace MurmDuke

--=============================================================================
-- Shared helper lemmas
--=============================================================================

theorem firstInactiveSlot_some (l : List SlotInfo) (i : Nat)
    (h : firstInactiveSlot l = some i) :
    i < l.length ∧ (l.getD i SlotInfo.dflt).active = false ∧
      ∀ j, j < i → (l.getD j SlotInfo.dflt).active = true := by
  induction l generalizing i with
  | nil => simp [firstInactiveSlot] at h
  | cons s rest ih =>
    by_cases hs : s.active = false
    · simp only [firstInactiveSlot, if_pos hs, Option.some.injEq] at h
      subst h
      exact ⟨by simp, by simpa using hs, fun j hj => by omega⟩
    · simp only [firstInactiveSlot, if_neg hs, Option.map_eq_some'] at h
      obtain ⟨a, ha, rfl⟩ := h
      obtain ⟨h1, h2, h3⟩ := ih a ha
      refine ⟨by simpa using h1, by simpa using h2, ?_⟩
      intro j hj
      cases j with
      | zero =>
        simp only [List.getD_cons_zero]
        revert hs
        cases s.active <;> simp
      | succ j' => simpa using h3 j' (by omega)

theorem firstInactiveSlot_none (l : List SlotInfo)
    (h : firstInactiveSlot l = none) :
    ∀ j, j < l.length → (l.getD j SlotInfo.dflt).active = true := by
  induction l with
  | nil => simp
  | cons s rest ih =>
    by_cases hs : s.active = false
    · simp [firstInactiveSlot, hs] at h
    · simp only [firstInactiveSlot, if_neg hs, Option.map_eq_none'] at h
      intro j hj
      cases j with
      | zero =>
        simp only [List.getD_cons_zero]
        revert hs
        cases s.active <;> simp
      | succ j' => simpa using ih h j' (by simpa using hj)

theorem stealScan_spec (l : List SlotInfo) (p : Int) :
    (∀ i, stealScan l p = some i →
      i < l.length ∧ (l.getD i SlotInfo.dflt).priority < p ∧
      (∀ j, j < l.length →
        (l.getD i SlotInfo.dflt).priority ≤ (l.getD j SlotInfo.dflt).priority) ∧
      (∀ j, j < i →
        (l.getD i SlotInfo.dflt).priority < (l.getD j SlotInfo.dflt).priority)) ∧
    (stealScan l p = none →
      ∀ j, j < l.length → p ≤ (l.getD j SlotInfo.dflt).priority) := by
  induction l generalizing p with
  | nil => simp [stealScan]
  | cons s rest ih =>
    by_cases hs : s.priority < p
    · constructor
      · intro i hi
        simp only [stealScan, if_pos hs] at hi
        rcases hrec : stealScan rest s.priority with _ | a
        · rw [hrec] at hi
          simp only [Option.some.injEq] at hi
          subst hi
          have hnone := (ih s.priority).2 hrec
          refine ⟨by simp, by simpa using hs, ?_, fun j hj => by omega⟩
          intro j hj
          cases j with
          | zero => simp
          | succ j' => simpa using hnone j' (by simpa using hj)
        · rw [hrec] at hi
          simp only [Option.some.injEq] at hi
          subst hi
          obtain ⟨h1, h2, h3, h4⟩ := (ih s.priority).1 a hrec
          refine ⟨by simpa using h1, ?_, ?_, ?_⟩
          · simpa using lt_trans h2 hs
          · intro j hj
            cases j with
            | zero => simpa using le_of_lt h2
            | succ j' => simpa using h3 j' (by simpa using hj)
          · intro j hj
            cases j with
            | zero => simpa using h2
            | succ j' => simpa using h4 j' (by omega)
      · intro hnone
        simp only [stealScan, if_pos hs] at hnone
        rcases hrec : stealScan rest s.priority with _ | a <;> rw [hrec] at hnone <;>
          simp at hnone
    · constructor
      · intro i hi
        simp only [stealScan, if_neg hs, Option.map_eq_some'] at hi
        obtain ⟨a, ha, rfl⟩ := hi
        obtain ⟨h1, h2, h3, h4⟩ := (ih p).1 a ha
        refine ⟨by simpa using h1, by simpa using h2, ?_, ?_⟩
        · intro j hj
          cases j with
          | zero =>
            simp only [List.getD_cons_zero, List.getD_cons_succ]
            exact le_trans (le_of_lt h2) (by omega)
          | succ j' => simpa using h3 j' (by simpa using hj)
        · intro j hj
          cases j with
          | zero =>
            simp only [List.getD_cons_zero, List.getD_cons_succ]
            omega
          | succ j' => simpa using h4 j' (by omega)
      · intro hnone
        simp only [stealScan, if_neg hs, Option.map_eq_none'] at hnone
        intro j hj
        cases j with
        | zero => simp only [List.getD_cons_zero]; omega
        | succ j' => simpa using (ih p).2 hnone j' (by simpa using hj)

theorem adpcmLoop_v1_le (src : List Nat) (fuel : Nat) :
    ∀ pos : Nat, ∀ ref stp : Int, ∀ samples : Nat, samples ≤ 256 →
      (adpcmLoop_v1 src fuel pos ref stp samples).2.2.2 ≤ 256 := by
  induction fuel with
  | zero => intro pos ref stp samples h; simpa [adpcmLoop_v1] using h
  | succ k ih =>
    intro pos ref stp samples h
    by_cases h1 : samples ≥ 256
    · simpa [adpcmLoop_v1, h1] using h
    · by_cases h2 : samples + 1 ≥ 256
      · simp only [adpcmLoop_v1, if_neg h1, if_pos h2]
        omega
      · simp only [adpcmLoop_v1, if_neg h1, if_neg h2]
        exact ih _ _ _ _ (by omega)

theorem adpcmLoop_v2_le (src : List Nat) (fuel : Nat) :
    ∀ pos : Nat, ∀ pred idx : Int, ∀ samples : Nat, samples ≤ 256 →
      (adpcmLoop_v2 src fuel pos pred idx samples).2.2.2 ≤ 256 := by
  induction fuel with
  | zero => intro pos pred idx samples h; simpa [adpcmLoop_v2] using h
  | succ k ih =>
    intro pos pred idx samples h
    by_cases h1 : samples ≥ 256
    · simpa [adpcmLoop_v2, h1] using h
    · by_cases h2 : samples + 1 ≥ 256
      · simp only [adpcmLoop_v2, if_neg h1, if_pos h2]
        omega
      · simp only [adpcmLoop_v2, if_neg h1, if_neg h2]
        exact ih _ _ _ _ (by omega)

theorem adpcmLoop_v1_mono (src : List Nat) (fuel : Nat) :
    ∀ pos : Nat, ∀ ref stp : Int, ∀ samples : Nat,
      samples ≤ (adpcmLoop_v1 src fuel pos ref stp samples).2.2.2 := by
  induction fuel with
  | zero => intro pos ref stp samples; simp [adpcmLoop_v1]
  | succ k ih =>
    intro pos ref stp samples
    by_cases h1 : samples ≥ 256
    · simp [adpcmLoop_v1, h1]
    · by_cases h2 : samples + 1 ≥ 256
      · simp only [adpcmLoop_v1, if_neg h1, if_pos h2]
        omega
      · simp only [adpcmLoop_v1, if_neg h1, if_neg h2]
        exact le_trans (by omega) (ih _ _ _ (samples + 2))

theorem adpcmLoop_v2_mono (src : List Nat) (fuel : Nat) :
    ∀ pos : Nat, ∀ pred idx : Int, ∀ samples : Nat,
      samples ≤ (adpcmLoop_v2 src fuel pos pred idx samples).2.2.2 := by
  induction fuel with
  | zero => intro pos pred idx samples; simp [adpcmLoop_v2]
  | succ k ih =>
    intro pos pred idx samples
    by_cases h1 : samples ≥ 256
    · simp [adpcmLoop_v2, h1]
    · by_cases h2 : samples + 1 ≥ 256
      · simp only [adpcmLoop_v2, if_neg h1, if_pos h2]
        omega
      · simp only [adpcmLoop_v2, if_neg h1, if_neg h2]
        exact le_trans (by omega) (ih _ _ _ (samples + 2))

theorem decompress_pcm_fields (v : Voice) :
    (decompress_pcm v).callbackVal = v.callbackVal ∧
    (decompress_pcm v).active = v.active ∧
    (decompress_pcm v).step = v.step ∧
    (decompress_pcm v).offset = v.offset ∧
    (decompress_pcm v).bufSize ≤ 256 := by
  simp only [decompress_pcm]
  split <;> split <;> simp [min_le_right]

theorem decompress_decode_v1_fields (v : Voice) :
    (decompress_decode_v1 v).callbackVal = v.callbackVal ∧
    (decompress_decode_v1 v).active = v.active ∧
    (decompress_decode_v1 v).step = v.step ∧
    (decompress_decode_v1 v).offset = v.offset ∧
    (decompress_decode_v1 v).bufSize ≤ 256 := by
  unfold decompress_decode_v1
  split
  · split <;>
      exact ⟨rfl, rfl, rfl, rfl, adpcmLoop_v1_le _ _ _ _ _ 0 (by omega)⟩
  · exact decompress_pcm_fields v

theorem decompress_decode_v2_fields (v : Voice) :
    (decompress_decode_v2 v).callbackVal = v.callbackVal ∧
    (decompress_decode_v2 v).active = v.active ∧
    (decompress_decode_v2 v).step = v.step ∧
    (decompress_decode_v2 v).offset = v.offset ∧
    (decompress_decode_v2 v).bufSize ≤ 256 := by
  unfold decompress_decode_v2
  split
  · exact ⟨rfl, rfl, rfl, rfl, adpcmLoop_v2_le _ _ _ _ _ 0 (by omega)⟩
  · exact decompress_pcm_fields v

theorem decompress_buffer_v1_fields (v : Voice) :
    (decompress_buffer_v1 v).callbackVal = v.callbackVal ∧
    (decompress_buffer_v1 v).active = v.active ∧
    (decompress_buffer_v1 v).step = v.step ∧
    (decompress_buffer_v1 v).offset = v.offset ∧
    (decompress_buffer_v1 v).bufSize ≤ 256 := by
  unfold decompress_buffer_v1
  split
  · simp
  · split
    · split
      · split
        · exact decompress_decode_v1_fields _
        · simp
      · simp
    · exact decompress_decode_v1_fields v

theorem decompress_buffer_v2_fields (v : Voice) :
    (decompress_buffer_v2 v).callbackVal = v.callbackVal ∧
    (decompress_buffer_v2 v).active = v.active ∧
    (decompress_buffer_v2 v).step = v.step ∧
    (decompress_buffer_v2 v).offset = v.offset ∧
    (decompress_buffer_v2 v).bufSize ≤ 256 := by
  unfold decompress_buffer_v2
  split
  · simp
  · split
    · split
      · split
        · exact decompress_decode_v2_fields _
        · simp
      · simp
    · exact decompress_decode_v2_fields v

theorem reads_append_ok {l : List (Nat × Nat)} {a b : Nat}
    (h : ∀ p ∈ l, p.1 < p.2 ∧ p.2 ≤ 256) (ha : a < b) (hb : b ≤ 256) :
    ∀ p ∈ l ++ [(a, b)], p.1 < p.2 ∧ p.2 ≤ 256 := by
  intro p hp
  rcases List.mem_append.1 hp with h1 | h2
  · exact h p h1
  · rw [List.mem_singleton.1 h2]
    exact ⟨ha, hb⟩

theorem mixLoop_v1_reads (fuel : Nat) :
    ∀ st : MixOut,
      st.offsetEnd = st.v.bufSize * 65536 →
      st.v.offset < st.offsetEnd →
      st.v.bufSize ≤ 256 →
      (∀ p ∈ st.reads, p.1 < p.2 ∧ p.2 ≤ 256) →
      (∀ p ∈ (mixLoop_v1 fuel st).reads, p.1 < p.2 ∧ p.2 ≤ 256) ∧
      ((mixLoop_v1 fuel st).v.active = true →
        (mixLoop_v1 fuel st).v.offset < (mixLoop_v1 fuel st).v.bufSize * 65536 ∧
        (mixLoop_v1 fuel st).v.bufSize ≤ 256) := by
  induction fuel with
  | zero =>
    intro st h1 h2 h3 h4
    simp only [mixLoop_v1]
    exact ⟨h4, fun _ => ⟨h1 ▸ h2, h3⟩⟩
  | succ k ih =>
    intro st h1 h2 h3 h4
    have hidx : st.v.offset / 65536 < st.v.bufSize := by
      rw [Nat.div_lt_iff_lt_mul (by norm_num : 0 < 65536)]
      omega
    have hnot : ¬ (st.v.offset / 65536 ≥ 256) := by omega
    simp only [mixLoop_v1, if_neg hnot]
    by_cases hcross : (st.v.offset + st.v.step) % u32 ≥ st.offsetEnd
    · rw [if_pos hcross]
      by_cases hcap : st.dcalls + 1 > 20
      · rw [if_pos hcap]
        refine ⟨reads_append_ok h4 hidx h3, ?_⟩
        intro hact
        simp at hact
      · rw [if_neg hcap]
        by_cases hoe :
            (decompress_buffer_v1
              { st.v with offset := (st.v.offset + st.v.step) % u32 - st.offsetEnd }).bufSize
              * 65536 = 0
        · rw [if_pos hoe]
          refine ⟨reads_append_ok h4 hidx h3, ?_⟩
          intro hact
          simp at hact
        · rw [if_neg hoe]
          have hdf := decompress_buffer_v1_fields
            { st.v with offset := (st.v.offset + st.v.step) % u32 - st.offsetEnd }
          refine ih _ ?_ ?_ ?_ ?_
          · split <;> simp
          · by_cases hcl :
                (decompress_buffer_v1
                  { st.v with offset := (st.v.offset + st.v.step) % u32 - st.offsetEnd }).offset
                  ≥ (decompress_buffer_v1
                    { st.v with offset := (st.v.offset + st.v.step) % u32 - st.offsetEnd }).bufSize
                    * 65536
            · rw [if_pos hcl]
              simpa using Nat.pos_of_ne_zero hoe
            · rw [if_neg hcl]
              simpa using lt_of_not_ge hcl
          · by_cases hcl :
                (decompress_buffer_v1
                  { st.v with offset := (st.v.offset + st.v.step) % u32 - st.offsetEnd }).offset
                  ≥ (decompress_buffer_v1
                    { st.v with offset := (st.v.offset + st.v.step) % u32 - st.offsetEnd }).bufSize
                    * 65536
            · rw [if_pos hcl]
              simpa using hdf.2.2.2.2
            · rw [if_neg hcl]
              simpa using hdf.2.2.2.2
          · simpa using reads_append_ok h4 hidx h3
    · rw [if_neg hcross]
      refine ih _ ?_ ?_ ?_ ?_
      · simpa using h1
      · simpa using lt_of_not_ge hcross
      · simpa using h3
      · simpa using reads_append_ok h4 hidx h3

theorem mixLoop_v2_reads (fuel : Nat) :
    ∀ st : MixOut,
      st.offsetEnd = st.v.bufSize * 65536 →
      st.v.offset < st.offsetEnd →
      st.v.bufSize ≤ 256 →
      (∀ p ∈ st.reads, p.1 < p.2 ∧ p.2 ≤ 256) →
      (∀ p ∈ (mixLoop_v2 fuel st).reads, p.1 < p.2 ∧ p.2 ≤ 256) ∧
      ((mixLoop_v2 fuel st).v.active = true →
        (mixLoop_v2 fuel st).v.offset < (mixLoop_v2 fuel st).v.bufSize * 65536 ∧
        (mixLoop_v2 fuel st).v.bufSize ≤ 256) := by
  induction fuel with
  | zero =>
    intro st h1 h2 h3 h4
    simp only [mixLoop_v2]
    exact ⟨h4, fun _ => ⟨h1 ▸ h2, h3⟩⟩
  | succ k ih =>
    intro st h1 h2 h3 h4
    have hidx : st.v.offset / 65536 < st.v.bufSize := by
      rw [Nat.div_lt_iff_lt_mul (by norm_num : 0 < 65536)]
      omega
    simp only [mixLoop_v2]
    by_cases hcross : (st.v.offset + st.v.step) % u32 ≥ st.offsetEnd
    · rw [if_pos hcross]
      have hdf := decompress_buffer_v2_fields
        { st.v with offset := (st.v.offset + st.v.step) % u32 - st.offsetEnd }
      by_cases hoe :
          (decompress_buffer_v2
            { st.v with offset := (st.v.offset + st.v.step) % u32 - st.offsetEnd }).bufSize
            * 65536 = 0 ∨
          (decompress_buffer_v2
            { st.v with offset := (st.v.offset + st.v.step) % u32 - st.offsetEnd }).offset
            ≥ (decompress_buffer_v2
              { st.v with offset := (st.v.offset + st.v.step) % u32 - st.offsetEnd }).bufSize
              * 65536
      · rw [if_pos hoe]
        refine ⟨reads_append_ok h4 hidx h3, ?_⟩
        intro hact
        simp at hact
      · rw [if_neg hoe]
        push_neg at hoe
        refine ih _ ?_ ?_ ?_ ?_
        · simp
        · simpa using hoe.2
        · simpa using hdf.2.2.2.2
        · simpa using reads_append_ok h4 hidx h3
    · rw [if_neg hcross]
      refine ih _ ?_ ?_ ?_ ?_
      · simpa using h1
      · simpa using lt_of_not_ge hcross
      · simpa using h3
      · simpa using reads_append_ok h4 hidx h3

theorem mixLoop_v1_callbacks (fuel : Nat) :
    ∀ st : MixOut, ∀ c : Nat, st.callbacks = [] → st.finished = false →
      st.v.callbackVal = c →
      (mixLoop_v1 fuel st).callbacks =
        (if (mixLoop_v1 fuel st).finished = true ∧ c ≠ 0 then [c] else []) := by
  induction fuel with
  | zero =>
    intro st c hc hf hcv
    simp only [mixLoop_v1, hf]
    simp [hc]
  | succ k ih =>
    intro st c hc hf hcv
    simp only [mixLoop_v1]
    by_cases hd : st.v.offset / 65536 ≥ 256
    · rw [if_pos hd]
      simp [hc, hf]
    · rw [if_neg hd]
      by_cases hcross : (st.v.offset + st.v.step) % u32 ≥ st.offsetEnd
      · rw [if_pos hcross]
        by_cases hcap : st.dcalls + 1 > 20
        · rw [if_pos hcap]
          simp [hc, hf]
        · rw [if_neg hcap]
          have hwcb : (decompress_buffer_v1
              { st.v with offset := (st.v.offset + st.v.step) % u32 - st.offsetEnd }).callbackVal
              = c := by
            rw [← hcv]
            simpa using (decompress_buffer_v1_fields
              { st.v with offset := (st.v.offset + st.v.step) % u32 - st.offsetEnd }).1
          by_cases hoe : (decompress_buffer_v1
              { st.v with offset := (st.v.offset + st.v.step) % u32 - st.offsetEnd }).bufSize
              * 65536 = 0
          · rw [if_pos hoe]
            by_cases hcb : c = 0 <;> simp [hc, hwcb, hcb]
          · rw [if_neg hoe]
            refine ih _ c (by simpa using hc) (by simpa using hf) ?_
            split <;> simpa using hwcb
      · rw [if_neg hcross]
        exact ih _ c (by simpa using hc) (by simpa using hf) (by simpa using hcv)

theorem mixLoop_v2_callbacks (fuel : Nat) :
    ∀ st : MixOut, ∀ c : Nat, st.callbacks = [] → st.finished = false →
      st.v.callbackVal = c →
      (mixLoop_v2 fuel st).callbacks =
        (if (mixLoop_v2 fuel st).finished = true ∧ c ≠ 0 then [c] else []) := by
  induction fuel with
  | zero =>
    intro st c hc hf hcv
    simp only [mixLoop_v2, hf]
    simp [hc]
  | succ k ih =>
    intro st c hc hf hcv
    simp only [mixLoop_v2]
    by_cases hcross : (st.v.offset + st.v.step) % u32 ≥ st.offsetEnd
    · rw [if_pos hcross]
      have hwcb : (decompress_buffer_v2
          { st.v with offset := (st.v.offset + st.v.step) % u32 - st.offsetEnd }).callbackVal
          = c := by
        rw [← hcv]
        simpa using (decompress_buffer_v2_fields
          { st.v with offset := (st.v.offset + st.v.step) % u32 - st.offsetEnd }).1
      by_cases hoe : (decompress_buffer_v2
          { st.v with offset := (st.v.offset + st.v.step) % u32 - st.offsetEnd }).bufSize
          * 65536 = 0 ∨
        (decompress_buffer_v2
          { st.v with offset := (st.v.offset + st.v.step) % u32 - st.offsetEnd }).offset
          ≥ (decompress_buffer_v2
            { st.v with offset := (st.v.offset + st.v.step) % u32 - st.offsetEnd }).bufSize
            * 65536
      · rw [if_pos hoe]
        by_cases hcb : c = 0 <;> simp [hc, hwcb, hcb]
      · rw [if_neg hoe]
        exact ih _ c (by simpa using hc) (by simpa using hf) (by simpa using hwcb)
    · rw [if_neg hcross]
      exact ih _ c (by simpa using hc) (by simpa using hf) (by simpa using hcv)

theorem mixLoop_v1_cap (fuel : Nat) :
    ∀ st : MixOut, st.refills = st.dcalls → st.dcalls ≤ 20 →
      (mixLoop_v1 fuel st).refills ≤ 20 ∧ (mixLoop_v1 fuel st).dcalls ≤ 21 ∧
      ((mixLoop_v1 fuel st).dcalls = 21 → (mixLoop_v1 fuel st).v.active = false) := by
  induction fuel with
  | zero =>
    intro st h1 h2
    simp only [mixLoop_v1]
    exact ⟨by omega, by omega, fun h => absurd h (by omega)⟩
  | succ k ih =>
    intro st h1 h2
    simp only [mixLoop_v1]
    by_cases hd : st.v.offset / 65536 ≥ 256
    · rw [if_pos hd]
      exact ⟨by simpa using by omega, by simpa using by omega, fun _ => by simp⟩
    · rw [if_neg hd]
      by_cases hcross : (st.v.offset + st.v.step) % u32 ≥ st.offsetEnd
      · rw [if_pos hcross]
        by_cases hcap : st.dcalls + 1 > 20
        · rw [if_pos hcap]
          exact ⟨by simpa using by omega, by simpa using by omega, fun _ => by simp⟩
        · rw [if_neg hcap]
          by_cases hoe : (decompress_buffer_v1
              { st.v with offset := (st.v.offset + st.v.step) % u32 - st.offsetEnd }).bufSize
              * 65536 = 0
          · rw [if_pos hoe]
            exact ⟨by simpa using by omega, by simpa using by omega, fun _ => by simp⟩
          · rw [if_neg hoe]
            exact ih _ (by simpa using by omega) (by simpa using by omega)
      · rw [if_neg hcross]
        exact ih _ (by simpa using h1) (by simpa using h2)

--=============================================================================
-- C1: no out-of-bounds buffer reads during mixing
--=============================================================================

/-- C1: in both driver revisions, every local-buffer read of a voice
during a mix pass uses the index `position >> 16` strictly below the
buffer's valid-sample count (recorded as the second component of each
read event, itself at most 256); whenever the advanced position reaches
`buffer_size * 65536` a refill runs before the next read (or the voice
is deactivated), and a voice still active when the pass ends satisfies
`position < buffer_size * 65536` again — the invariant the play calls
establish with `offset = 0` after the first refill — so no
out-of-bounds access ever occurs. -/
theorem c1_mix_reads_in_bounds (v : Voice) (n : Nat)
    (h1 : v.offset < v.bufSize * 65536) (h2 : v.bufSize ≤ 256) :
    (∀ p ∈ (mixVoice_v1 v n).reads, p.1 < p.2 ∧ p.2 ≤ 256) ∧
    ((mixVoice_v1 v n).v.active = true →
      (mixVoice_v1 v n).v.offset < (mixVoice_v1 v n).v.bufSize * 65536 ∧
      (mixVoice_v1 v n).v.bufSize ≤ 256) ∧
    (∀ p ∈ (mixVoice_v2 v n).reads, p.1 < p.2 ∧ p.2 ≤ 256) ∧
    ((mixVoice_v2 v n).v.active = true →
      (mixVoice_v2 v n).v.offset < (mixVoice_v2 v n).v.bufSize * 65536 ∧
      (mixVoice_v2 v n).v.bufSize ≤ 256) := by
  unfold mixVoice_v1 mixVoice_v2
  by_cases hskip : v.active = false ∨ v.bufSize = 0
  · rw [if_pos hskip, if_pos hskip]
    exact ⟨by simp, fun _ => ⟨by simpa using h1, by simpa using h2⟩,
      by simp, fun _ => ⟨by simpa using h1, by simpa using h2⟩⟩
  · rw [if_neg hskip, if_neg hskip]
    have hcl : ¬ (v.offset / 65536 ≥ 256) := by
      have hx : v.offset / 65536 < v.bufSize := by
        rw [Nat.div_lt_iff_lt_mul (by norm_num : 0 < 65536)]
        omega
      omega
    rw [if_neg hcl]
    have r1 := mixLoop_v1_reads n ⟨v, v.bufSize * 65536, 0, 0, [], [], false⟩
      (by simp) (by simpa using h1) (by simpa using h2) (by simp)
    have r2 := mixLoop_v2_reads n ⟨v, v.bufSize * 65536, 0, 0, [], [], false⟩
      (by simp) (by simpa using h1) (by simpa using h2) (by simp)
    exact ⟨r1.1, r1.2, r2.1, r2.2⟩

/-- Witness for C1 at a concrete active voice mid-playback. -/
theorem c1_witness :
    (∀ p ∈ (mixVoice_v1 vPlain 3).reads, p.1 < p.2 ∧ p.2 ≤ 256) ∧
    ((mixVoice_v1 vPlain 3).v.active = true →
      (mixVoice_v1 vPlain 3).v.offset < (mixVoice_v1 vPlain 3).v.bufSize * 65536 ∧
      (mixVoice_v1 vPlain 3).v.bufSize ≤ 256) ∧
    (∀ p ∈ (mixVoice_v2 vPlain 3).reads, p.1 < p.2 ∧ p.2 ≤ 256) ∧
    ((mixVoice_v2 vPlain 3).v.active = true →
      (mixVoice_v2 vPlain 3).v.offset < (mixVoice_v2 vPlain 3).v.bufSize * 65536 ∧
      (mixVoice_v2 vPlain 3).v.bufSize ≤ 256) :=
  c1_mix_reads_in_bounds vPlain 3 (by decide) (by decide)

--=============================================================================
-- C3: completion callbacks on natural end and steal, silence on stop
--=============================================================================

/-- C3: revision 1's mixer queues the voice's token exactly once, and
only when the empty-refill finish branch runs with a nonzero token (a
voice with token 0 is the subject of C10); `stop_voice` with the
callback flag — the call every play routine makes on the slot it is
about to take over, so the steal path — queues the token exactly once
when the slot held an active sound with a nonzero token; `stop_voice`
without the flag — `I_PicoSound_StopVoice` and
`I_PicoSound_StopAllVoices` — never queues anything. -/
theorem c3_callback_once_on_finish_and_steal (v : Voice) (n : Nat) :
    (mixVoice_v1 v n).callbacks =
      (if (mixVoice_v1 v n).finished = true ∧ v.callbackVal ≠ 0
       then [v.callbackVal] else []) ∧
    (stop_voice v true).2 =
      (if v.active = true ∧ v.callbackVal ≠ 0 then [v.callbackVal] else []) ∧
    (stop_voice v false).2 = [] := by
  refine ⟨?_, ?_, ?_⟩
  · unfold mixVoice_v1
    by_cases hskip : v.active = false ∨ v.bufSize = 0
    · rw [if_pos hskip]
      simp
    · rw [if_neg hskip]
      split
      · exact mixLoop_v1_callbacks n _ v.callbackVal (by simp) (by simp) (by simp)
      · exact mixLoop_v1_callbacks n _ v.callbackVal (by simp) (by simp) (by simp)
  · simp [stop_voice]
  · simp [stop_voice]

--=============================================================================
-- C7: refill bound per mix pass
--=============================================================================

theorem mixLoop_v2_refills_le (fuel : Nat) :
    ∀ st : MixOut, (mixLoop_v2 fuel st).refills ≤ st.refills + fuel := by
  induction fuel with
  | zero => intro st; simp [mixLoop_v2]
  | succ k ih =>
    intro st
    simp only [mixLoop_v2]
    by_cases hcross : (st.v.offset + st.v.step) % u32 ≥ st.offsetEnd
    · rw [if_pos hcross]
      by_cases hoe : (decompress_buffer_v2
          { st.v with offset := (st.v.offset + st.v.step) % u32 - st.offsetEnd }).bufSize
          * 65536 = 0 ∨
        (decompress_buffer_v2
          { st.v with offset := (st.v.offset + st.v.step) % u32 - st.offsetEnd }).offset
          ≥ (decompress_buffer_v2
            { st.v with offset := (st.v.offset + st.v.step) % u32 - st.offsetEnd }).bufSize
            * 65536
      · rw [if_pos hoe]
        simp
      · rw [if_neg hoe]
        refine le_trans (ih _) ?_
        simp
        try omega
    · rw [if_neg hcross]
      refine le_trans (ih _) ?_
      simp
      try omega

/-- Counterexample to C7: revision 2's mixer has no refill cap — a
2-byte looping source consumed at one local buffer per output sample
triggers one refill for every output sample of the pass (here 25,
already past "about 20") and the voice stays active. -/
theorem c7_counterexample :
    (mixVoice_v2 vTinyLoop 25).refills = 25 ∧
    (mixVoice_v2 vTinyLoop 25).v.active = true := by decide

/-- C7 amended: revision 1's `mix_audio_buffer` (the cited cap code)
bounds a voice's `decompress_buffer` invocations by 20 per pass — the
`decompress_calls` counter stops at 21, and reaching 21 means the cap
branch refused a further refill and deactivated the voice.  Revision
2's mixer has no such cap; its refill work is bounded only by one
`decompress_buffer` call per output sample of the pass, so a
pathological tiny looping source costs one refill per output sample,
as the counterexample shows. -/
theorem c7_refill_cap (v : Voice) (n : Nat) :
    (mixVoice_v1 v n).refills ≤ 20 ∧ (mixVoice_v1 v n).dcalls ≤ 21 ∧
    ((mixVoice_v1 v n).dcalls = 21 → (mixVoice_v1 v n).v.active = false) ∧
    (mixVoice_v2 v n).refills ≤ n := by
  have h1 : (mixVoice_v1 v n).refills ≤ 20 ∧ (mixVoice_v1 v n).dcalls ≤ 21 ∧
      ((mixVoice_v1 v n).dcalls = 21 → (mixVoice_v1 v n).v.active = false) := by
    unfold mixVoice_v1
    by_cases hskip : v.active = false ∨ v.bufSize = 0
    · rw [if_pos hskip]
      exact ⟨by simp, by simp, fun h => absurd h (by simp)⟩
    · rw [if_neg hskip]
      split <;> exact mixLoop_v1_cap n _ (by simp) (by simp)
  have h2 : (mixVoice_v2 v n).refills ≤ n := by
    unfold mixVoice_v2
    by_cases hskip : v.active = false ∨ v.bufSize = 0
    · rw [if_pos hskip]
      simp
    · rw [if_neg hskip]
      simpa using mixLoop_v2_refills_le n ⟨v, v.bufSize * 65536, 0, 0, [], [], false⟩
  exact ⟨h1.1, h1.2.1, h1.2.2, h2⟩

/-- Witness for C7: a 2-byte looping source consumed at one buffer per
output sample hits the cap after 20 refills and is deactivated. -/
theorem c7_witness :
    (mixVoice_v1 vTinyLoop 25).refills ≤ 20 ∧
    (mixVoice_v1 vTinyLoop 25).v.active = false :=
  ⟨(c7_refill_cap vTinyLoop 25).1,
   (c7_refill_cap vTinyLoop 25).2.2.1 (by decide)⟩

--=============================================================================
-- C10: token 0 never enqueued
--=============================================================================

/-- C10: a voice whose callback token is 0 never puts anything on the
callback queue: not from either revision's mixer finish path, and not
from `stop_voice` with or without the callback flag (covering explicit
stops and the steal path of the play calls). -/
theorem c10_zero_token_never_enqueued (v : Voice) (n : Nat) (b : Bool)
    (h : v.callbackVal = 0) :
    (mixVoice_v1 v n).callbacks = [] ∧
    (mixVoice_v2 v n).callbacks = [] ∧
    (stop_voice v b).2 = [] := by
  refine ⟨?_, ?_, ?_⟩
  · unfold mixVoice_v1
    by_cases hskip : v.active = false ∨ v.bufSize = 0
    · rw [if_pos hskip]
    · rw [if_neg hskip]
      split <;>
        · rw [mixLoop_v1_callbacks n _ 0 (by simp) (by simp) (by simpa using h)]
          simp
  · unfold mixVoice_v2
    by_cases hskip : v.active = false ∨ v.bufSize = 0
    · rw [if_pos hskip]
    · rw [if_neg hskip]
      rw [mixLoop_v2_callbacks n _ 0 (by simp) (by simp) (by simpa using h)]
      simp
  · simp [stop_voice, h]

/-- Witness for C10 at a concrete token-0 voice. -/
theorem c10_witness :
    (mixVoice_v1 vTinyLoop 2).callbacks = [] ∧
    (mixVoice_v2 vTinyLoop 2).callbacks = [] ∧
    (stop_voice vTinyLoop true).2 = [] :=
  c10_zero_token_never_enqueued vTinyLoop 2 true (by decide)

--=============================================================================
-- C6: loop rewind on refill
--=============================================================================

theorem adpcmLoop_v1_pos (src : List Nat) (k pos : Nat) (ref stp : Int) :
    1 ≤ (adpcmLoop_v1 src (k + 1) pos ref stp 0).2.2.2 := by
  have h1 : ¬ ((0 : Nat) ≥ 256) := by omega
  have h2 : ¬ ((0 : Nat) + 1 ≥ 256) := by omega
  simp only [adpcmLoop_v1, if_neg h1, if_neg h2]
  exact le_trans (by omega) (adpcmLoop_v1_mono src k (pos + 1) _ _ 2)

theorem adpcmLoop_v2_pos (src : List Nat) (k pos : Nat) (pred idx : Int) :
    1 ≤ (adpcmLoop_v2 src (k + 1) pos pred idx 0).2.2.2 := by
  have h1 : ¬ ((0 : Nat) ≥ 256) := by omega
  have h2 : ¬ ((0 : Nat) + 1 ≥ 256) := by omega
  simp only [adpcmLoop_v2, if_neg h1, if_neg h2]
  exact le_trans (by omega) (adpcmLoop_v2_mono src k (pos + 1) _ _ 2)

theorem decompress_pcm_pos (w : Voice) (hb : w.pos + 2 ≤ w.endPos) :
    0 < (decompress_pcm w).bufSize := by
  have havail : 0 < (if w.is16bit then (w.endPos - w.pos) / 2 else w.endPos - w.pos) := by
    by_cases h16 : w.is16bit <;> simp [h16] <;> omega
  have hmin : ¬ ((if w.is16bit then (w.endPos - w.pos) / 2 else w.endPos - w.pos) ⊓ 256 = 0) := by
    have := lt_min havail (by norm_num : (0 : Nat) < 256)
    omega
  simp only [decompress_pcm, if_neg hmin]
  omega

theorem decompress_decode_v1_pos (w : Voice) (hb : w.pos + 2 ≤ w.endPos) :
    0 < (decompress_decode_v1 w).bufSize := by
  unfold decompress_decode_v1
  by_cases ha : w.isAdpcm
  · rw [if_pos ha]
    by_cases hinit : w.adpcmStep < 0 ∧ w.pos < w.endPos
    · rw [if_pos hinit]
      obtain ⟨k, hk⟩ : ∃ k, w.endPos - (w.pos + 1) = k + 1 :=
        ⟨w.endPos - (w.pos + 1) - 1, by omega⟩
      simp only [hk]
      simpa using adpcmLoop_v1_pos w.src k (w.pos + 1) _ _
    · rw [if_neg hinit]
      obtain ⟨k, hk⟩ : ∃ k, w.endPos - w.pos = k + 1 :=
        ⟨w.endPos - w.pos - 1, by omega⟩
      simp only [hk]
      simpa using adpcmLoop_v1_pos w.src k w.pos _ _
  · rw [if_neg ha]
    exact decompress_pcm_pos w hb

theorem decompress_decode_v2_pos (w : Voice) (hb : w.pos + 2 ≤ w.endPos) :
    0 < (decompress_decode_v2 w).bufSize := by
  unfold decompress_decode_v2
  by_cases ha : w.isAdpcm
  · rw [if_pos ha]
    obtain ⟨k, hk⟩ : ∃ k, w.endPos - w.pos = k + 1 :=
      ⟨w.endPos - w.pos - 1, by omega⟩
    simp only [hk]
    simpa using adpcmLoop_v2_pos w.src k w.pos _ _
  · rw [if_neg ha]
    exact decompress_pcm_pos w hb

/-- Counterexample to C6: `vEmptyLoop` is a looping voice with a
loop-start set (reachable through `I_PicoSound_PlayRaw`, whose
`loopstart` pointer is caller-supplied and here equals the data end),
yet a refill yields zero valid samples in both revisions, and one mixer
pass deactivates the voice through the zero-valid-samples finish path,
queueing its completion callback. -/
theorem c6_counterexample :
    vEmptyLoop.looping = true ∧ vEmptyLoop.loopStart = some 0 ∧
    (decompress_buffer_v1 vEmptyLoop).bufSize = 0 ∧
    (decompress_buffer_v2 vEmptyLoop).bufSize = 0 ∧
    (mixVoice_v1 vEmptyLoop 1).finished = true ∧
    (mixVoice_v1 vEmptyLoop 1).v.active = false ∧
    (mixVoice_v1 vEmptyLoop 1).callbacks = [7] ∧
    (mixVoice_v2 vEmptyLoop 1).finished = true ∧
    (mixVoice_v2 vEmptyLoop 1).v.active = false := by decide

/-- C6 amended: for a looping voice with loop-start set, a refill at
the end of the source rewinds the cursor exactly to loop-start and, for
ADPCM, resets the decoder state to its initial-play values (revision 1:
reference 128, step -1; revision 2: predictor 0, index 0); provided the
loop region holds at least two bytes, the refill then decodes at least
one sample, so that refill never takes the zero-valid-samples finish
path.  (With an empty — or one-byte ADPCM/16-bit — loop region the
refill yields zero samples and the mixer deactivates the voice, as the
counterexample shows.) -/
theorem c6_loop_refill_rewinds (v : Voice) (ls : Nat)
    (hp : v.pos = v.endPos) (hl : v.looping = true) (hs : v.loopStart = some ls)
    (hb : ls + 2 ≤ v.endPos) :
    decompress_buffer_v1 v =
      decompress_decode_v1
        { v with pos := ls,
                 adpcmPred := if v.isAdpcm then 128 else v.adpcmPred,
                 adpcmStep := if v.isAdpcm then -1 else v.adpcmStep } ∧
    decompress_buffer_v2 v =
      decompress_decode_v2
        { v with pos := ls,
                 adpcmPred := if v.isAdpcm then 0 else v.adpcmPred,
                 adpcmStep := if v.isAdpcm then 0 else v.adpcmStep } ∧
    0 < (decompress_buffer_v1 v).bufSize ∧
    0 < (decompress_buffer_v2 v).bufSize := by
  have hnl : ¬ (v.endPos < v.pos) := by omega
  have hle : v.endPos ≤ v.pos := by omega
  have e1 : decompress_buffer_v1 v =
      decompress_decode_v1
        { v with pos := ls,
                 adpcmPred := if v.isAdpcm then 128 else v.adpcmPred,
                 adpcmStep := if v.isAdpcm then -1 else v.adpcmStep } := by
    unfold decompress_buffer_v1
    rw [if_neg hnl, if_pos hle, hs]
    simp [hl]
  have e2 : decompress_buffer_v2 v =
      decompress_decode_v2
        { v with pos := ls,
                 adpcmPred := if v.isAdpcm then 0 else v.adpcmPred,
                 adpcmStep := if v.isAdpcm then 0 else v.adpcmStep } := by
    unfold decompress_buffer_v2
    rw [if_neg hnl, if_pos hle, hs]
    simp [hl]
  refine ⟨e1, e2, ?_, ?_⟩
  · rw [e1]
    exact decompress_decode_v1_pos _ (by simpa using hb)
  · rw [e2]
    exact decompress_decode_v2_pos _ (by simpa using hb)

/-- Witness for the amended C6 at a concrete looping voice whose
cursor sits at the end of a 3-byte sample. -/
theorem c6_witness :
    decompress_buffer_v1 vLoopEnd =
      decompress_decode_v1
        { vLoopEnd with
            pos := 0,
            adpcmPred := if vLoopEnd.isAdpcm then 128 else vLoopEnd.adpcmPred,
            adpcmStep := if vLoopEnd.isAdpcm then -1 else vLoopEnd.adpcmStep } ∧
    decompress_buffer_v2 vLoopEnd =
      decompress_decode_v2
        { vLoopEnd with
            pos := 0,
            adpcmPred := if vLoopEnd.isAdpcm then 0 else vLoopEnd.adpcmPred,
            adpcmStep := if vLoopEnd.isAdpcm then 0 else vLoopEnd.adpcmStep } ∧
    0 < (decompress_buffer_v1 vLoopEnd).bufSize ∧
    0 < (decompress_buffer_v2 vLoopEnd).bufSize :=
  c6_loop_refill_rewinds vLoopEnd 0 (by decide) (by decide) (by decide) (by decide)

--=============================================================================
-- C5: VOC type-9 codec-4 classification
--=============================================================================

/-- Counterexample to C5: on a valid VOC whose first sound block is
type 9 with codec 4, revision 2's `parse_voc` reports codec 4, so
`I_PicoSound_PlayVOC` in that revision sets `is_adpcm = true` —
"never as ADPCM" fails for the second driver revision. -/
theorem c5_counterexample :
    parse_voc_v2 vocType9Codec4 = some ⟨42, 2, 11025, true, 4⟩ ∧
    vocIsAdpcm (parse_voc_v2 vocType9Codec4) = true := by decide

/-- C5 amended: revision 1's `parse_voc` preserves the quirk — any VOC
whose first parsed block is type 9 with codec field 4 (and one channel)
parses as 16-bit PCM with reported codec 0, hence `is_adpcm = false`;
revision 2's parser instead passes codec 4 through and classifies the
data as ADPCM, as the counterexample shows. -/
theorem c5_type9_codec4_is_pcm_v1 (d : List Nat) (hs bs : Nat)
    (hhs : hs = read_le16 d 20)
    (hbs : bs = d.getD (hs + 1) 0 + 256 * d.getD (hs + 2) 0 +
      65536 * d.getD (hs + 3) 0)
    (hlen : 26 ≤ d.length)
    (hmagic : d.take 20 = vocMagic)
    (hblock : hs < d.length)
    (htype : d.getD hs 0 = 9)
    (hsz : 12 ≤ bs)
    (hfit : hs + 4 + bs ≤ d.length)
    (hch : d.getD (hs + 4 + 5) 0 = 1)
    (hcodec : read_le16 d (hs + 4 + 6) = 4) :
    parse_voc_v1 d =
      some ⟨hs + 4 + 12, bs - 12, read_le32 d (hs + 4), true, 0⟩ := by
  obtain ⟨k, hk⟩ : ∃ k, d.length = k + 1 := ⟨d.length - 1, by omega⟩
  unfold parse_voc_v1
  rw [if_neg (by omega), if_neg (by simp [hmagic]), if_neg (by omega), ← hhs, hk]
  have c1 : ¬ (k + 1 ≤ hs) := by omega
  have c2 : ¬ (k + 1 < hs + 4) := by omega
  have c3 : ¬ (k + 1 < hs + 4 + bs) := by omega
  have c4 : ¬ (bs < 12) := by omega
  simp only [vocBlocks_v1, ← hbs, htype, if_neg c1, if_neg c2, if_neg c3,
    if_neg c4, hcodec, hch]
  norm_num

/-- Witness for the amended C5 at the concrete type-9/codec-4 file. -/
theorem c5_witness :
    parse_voc_v1 vocType9Codec4 = some ⟨42, 2, 11025, true, 0⟩ := by
  simpa using c5_type9_codec4_is_pcm_v1 vocType9Codec4 26 14 (by decide)
    (by decide) (by decide) (by decide) (by decide) (by decide) (by decide)
    (by decide) (by decide) (by decide)

--=============================================================================
-- C8: repeated Note-On handling
--=============================================================================

theorem firstIdxWhere_some (p : OplVoice → Bool) (l : List OplVoice) (i : Nat)
    (h : firstIdxWhere p l = some i) :
    i < l.length ∧ p (l.getD i OplVoice.dflt) = true := by
  induction l generalizing i with
  | nil => simp [firstIdxWhere] at h
  | cons v rest ih =>
    by_cases hp : p v
    · simp only [firstIdxWhere, if_pos hp, Option.some.injEq] at h
      subst h
      exact ⟨by simp, by simpa using hp⟩
    · simp only [firstIdxWhere, if_neg hp, Option.map_eq_some'] at h
      obtain ⟨a, ha, rfl⟩ := h
      obtain ⟨h1, h2⟩ := ih a ha
      exact ⟨by simpa using h1, by simpa using h2⟩

theorem firstIdxWhere_isSome (p : OplVoice → Bool) (l : List OplVoice) (j : Nat)
    (hj : j < l.length) (hp : p (l.getD j OplVoice.dflt) = true) :
    (firstIdxWhere p l).isSome = true := by
  induction l generalizing j with
  | nil => simp at hj
  | cons v rest ih =>
    by_cases hv : p v
    · simp [firstIdxWhere, hv]
    · simp only [firstIdxWhere, if_neg hv]
      cases j with
      | zero =>
        simp only [List.getD_cons_zero] at hp
        exact absurd hp (by simpa using hv)
      | succ j' =>
        have := ih j' (by simpa using hj) (by simpa using hp)
        rcases hx : firstIdxWhere p rest with _ | a
        · rw [hx] at this
          simp at this
        · simp [hx]

theorem getD_set_ne {α : Type _} (l : List α) (i j : Nat) (x d : α)
    (h : i ≠ j) : (l.set i x).getD j d = l.getD j d := by
  simp [List.getD_eq_getElem?_getD, List.getElem?_set_ne h]

theorem getD_set_self {α : Type _} (l : List α) (i : Nat) (x d : α)
    (h : i < l.length) : (l.set i x).getD i d = x := by
  simp [List.getD_eq_getElem?_getD, List.getElem?_set_eq_of_lt x h]

theorem allocateVoiceIdx_inactive (st : OplState) (ch key : Int)
    (hfree : ∃ j, j < st.voices.length ∧
      (st.voices.getD j OplVoice.dflt).active = false) :
    (st.voices.getD (allocateVoiceIdx st ch key) OplVoice.dflt).active = false ∧
    allocateVoiceIdx st ch key < st.voices.length ∧
    (allocateVoice st ch key).1 = allocateVoiceIdx st ch key ∧
    (allocateVoice st ch key).2 = st := by
  obtain ⟨j, hj, hja⟩ := hfree
  unfold allocateVoiceIdx allocateVoice
  rcases h1 : firstIdxWhere
      (fun v => !v.active && v.timbre == targetTimbre st ch key) st.voices
    with _ | i
  · rcases h2 : firstIdxWhere (fun v => !v.active) st.voices with _ | i
    · have := firstIdxWhere_isSome (fun v => !v.active) st.voices j hj
        (by simpa using hja)
      rw [h2] at this
      simp at this
    · obtain ⟨hi1, hi2⟩ := firstIdxWhere_some _ _ i h2
      simp only [h1, h2]
      exact ⟨by simpa using hi2, hi1, by trivial, by trivial⟩
  · obtain ⟨hi1, hi2⟩ := firstIdxWhere_some _ _ i h1
    simp only [h1]
    refine ⟨?_, hi1, by trivial, by trivial⟩
    have := hi2
    simp only [Bool.and_eq_true, beq_iff_eq, Bool.not_eq_true'] at this
    exact this.1

/-- Counterexample to C8: with voice 0 actively sounding (channel 0,
key 60) and idle voices available, a second Note-On for the same
(channel, key) is routed to `AllocateVoice`, which returns idle voice 1
instead of re-finding voice 0 via `FindVoice`; after processing, two
voices are active on the same (channel, key). -/
theorem c8_counterexample :
    findVoice oplRepeatedNoteOn 0 60 = some 0 ∧
    allocateVoiceIdx oplRepeatedNoteOn 0 60 = 1 ∧
    ((processNoteOn oplRepeatedNoteOn 0 60 100).voices.getD 0
      OplVoice.dflt).active = true ∧
    ((processNoteOn oplRepeatedNoteOn 0 60 100).voices.getD 1
      OplVoice.dflt).active = true ∧
    ((processNoteOn oplRepeatedNoteOn 0 60 100).voices.getD 1
      OplVoice.dflt).channel = 0 ∧
    ((processNoteOn oplRepeatedNoteOn 0 60 100).voices.getD 1
      OplVoice.dflt).key = 60 := by decide

/-- C8 amended: a repeated Note-On with positive velocity on a
(channel, key) that already has an active voice does NOT reuse that
voice: `ProcessMIDIEvent` hands it straight to `AllocateVoice`, which
prefers inactive slots, so whenever any slot is inactive the chosen
voice differs from the one `FindVoice` would return, and after
processing both the original voice and the newly allocated one are
active on the same (channel, key).  `FindVoice` is consulted only by
Note-Off and by Note-On with velocity 0. -/
theorem c8_repeated_note_on_second_voice (st : OplState) (ch key vel : Int)
    (i : Nat)
    (hvel : ¬ vel = 0)
    (hfind : findVoice st ch key = some i)
    (hfree : ∃ j, j < st.voices.length ∧
      (st.voices.getD j OplVoice.dflt).active = false) :
    allocateVoiceIdx st ch key ≠ i ∧
    (st.voices.getD (allocateVoiceIdx st ch key) OplVoice.dflt).active = false ∧
    ((processNoteOn st ch key vel).voices.getD i OplVoice.dflt).active = true ∧
    ((processNoteOn st ch key vel).voices.getD i OplVoice.dflt).channel = ch ∧
    ((processNoteOn st ch key vel).voices.getD i OplVoice.dflt).key = key ∧
    ((processNoteOn st ch key vel).voices.getD (allocateVoiceIdx st ch key)
      OplVoice.dflt).active = true ∧
    ((processNoteOn st ch key vel).voices.getD (allocateVoiceIdx st ch key)
      OplVoice.dflt).channel = ch ∧
    ((processNoteOn st ch key vel).voices.getD (allocateVoiceIdx st ch key)
      OplVoice.dflt).key = key := by
  obtain ⟨hFi, hFp⟩ := firstIdxWhere_some _ _ i hfind
  simp only [Bool.and_eq_true, beq_iff_eq] at hFp
  obtain ⟨⟨hact, hchan⟩, hkey⟩ := hFp
  obtain ⟨hAin, hAlt, hAfst, hAsnd⟩ := allocateVoiceIdx_inactive st ch key hfree
  have hne : allocateVoiceIdx st ch key ≠ i := by
    intro he
    rw [he] at hAin
    rw [hact] at hAin
    simp at hAin
  have hproc : processNoteOn st ch key vel =
      alNoteOnUpd st (allocateVoiceIdx st ch key) ch key vel := by
    unfold processNoteOn
    rw [if_neg hvel]
    simp only [hAsnd, hAfst]
  rw [hproc]
  unfold alNoteOnUpd
  refine ⟨hne, hAin, ?_, ?_, ?_, ?_, ?_, ?_⟩
  · rw [getD_set_ne _ _ _ _ _ hne]
    exact hact
  · rw [getD_set_ne _ _ _ _ _ hne]
    exact hchan
  · rw [getD_set_ne _ _ _ _ _ hne]
    exact hkey
  · rw [getD_set_self _ _ _ _ hAlt]
    split <;> simp
  · rw [getD_set_self _ _ _ _ hAlt]
    split <;> simp
  · rw [getD_set_self _ _ _ _ hAlt]
    split <;> simp

/-- Witness for the amended C8 at the concrete repeated-Note-On
scenario. -/
theorem c8_witness :
    allocateVoiceIdx oplRepeatedNoteOn 0 60 ≠ 0 ∧
    (oplRepeatedNoteOn.voices.getD (allocateVoiceIdx oplRepeatedNoteOn 0 60)
      OplVoice.dflt).active = false ∧
    ((processNoteOn oplRepeatedNoteOn 0 60 100).voices.getD 0
      OplVoice.dflt).active = true ∧
    ((processNoteOn oplRepeatedNoteOn 0 60 100).voices.getD 0
      OplVoice.dflt).channel = 0 ∧
    ((processNoteOn oplRepeatedNoteOn 0 60 100).voices.getD 0
      OplVoice.dflt).key = 60 ∧
    ((processNoteOn oplRepeatedNoteOn 0 60 100).voices.getD
      (allocateVoiceIdx oplRepeatedNoteOn 0 60) OplVoice.dflt).active = true ∧
    ((processNoteOn oplRepeatedNoteOn 0 60 100).voices.getD
      (allocateVoiceIdx oplRepeatedNoteOn 0 60) OplVoice.dflt).channel = 0 ∧
    ((processNoteOn oplRepeatedNoteOn 0 60 100).voices.getD
      (allocateVoiceIdx oplRepeatedNoteOn 0 60) OplVoice.dflt).key = 60 :=
  c8_repeated_note_on_second_voice oplRepeatedNoteOn 0 60 100 0 (by decide)
    (by decide) ⟨1, by decide, by decide⟩

--=============================================================================
-- C2: voice slot allocation
--=============================================================================

/-- C2: `find_voice_slot` returns the lowest-indexed inactive slot when
one exists; otherwise, when some active slot's priority is strictly
below the requesting priority, it returns the slot of minimum priority
with ties resolved to the lowest index; otherwise it fails.  Being a
pure function of the pool state, the result is deterministic. -/
theorem c2_find_voice_slot_spec (slots : List SlotInfo) (p : Int) :
    ((∃ j, j < slots.length ∧ (slots.getD j SlotInfo.dflt).active = false) →
      ∃ i, find_voice_slot slots p = some i ∧ i < slots.length ∧
        (slots.getD i SlotInfo.dflt).active = false ∧
        ∀ j, j < i → (slots.getD j SlotInfo.dflt).active = true) ∧
    ((∀ j, j < slots.length → (slots.getD j SlotInfo.dflt).active = true) →
      (∃ j, j < slots.length ∧ (slots.getD j SlotInfo.dflt).priority < p) →
      ∃ i, find_voice_slot slots p = some i ∧ i < slots.length ∧
        (slots.getD i SlotInfo.dflt).priority < p ∧
        (∀ j, j < slots.length →
          (slots.getD i SlotInfo.dflt).priority ≤ (slots.getD j SlotInfo.dflt).priority) ∧
        ∀ j, j < i →
          (slots.getD i SlotInfo.dflt).priority < (slots.getD j SlotInfo.dflt).priority) ∧
    ((∀ j, j < slots.length → (slots.getD j SlotInfo.dflt).active = true) →
      (∀ j, j < slots.length → p ≤ (slots.getD j SlotInfo.dflt).priority) →
      find_voice_slot slots p = none) := by
  refine ⟨?_, ?_, ?_⟩
  · rintro ⟨j, hj, hja⟩
    rcases hfi : firstInactiveSlot slots with _ | i
    · exact absurd ((firstInactiveSlot_none slots hfi) j hj) (by rw [hja]; simp)
    · obtain ⟨h1, h2, h3⟩ := firstInactiveSlot_some slots i hfi
      exact ⟨i, by simp [find_voice_slot, hfi], h1, h2, h3⟩
  · intro hall ⟨j, hj, hjp⟩
    rcases hfi : firstInactiveSlot slots with _ | i
    · rcases hss : stealScan slots p with _ | i
      · exact absurd ((stealScan_spec slots p).2 hss j hj) (by omega)
      · obtain ⟨h1, h2, h3, h4⟩ := (stealScan_spec slots p).1 i hss
        exact ⟨i, by simp [find_voice_slot, hfi, hss], h1, h2, h3, h4⟩
    · obtain ⟨h1, h2, _⟩ := firstInactiveSlot_some slots i hfi
      exact absurd (hall i h1) (by rw [h2]; simp)
  · intro hall hp
    rcases hfi : firstInactiveSlot slots with _ | i
    · rcases hss : stealScan slots p with _ | i
      · simp [find_voice_slot, hfi, hss]
      · obtain ⟨h1, h2, _, _⟩ := (stealScan_spec slots p).1 i hss
        exact absurd (hp i h1) (by omega)
    · obtain ⟨h1, h2, _⟩ := firstInactiveSlot_some slots i hfi
      exact absurd (hall i h1) (by rw [h2]; simp)

/-- Witness for C2 at concrete pools: a pool with a free slot picks the
lowest-indexed free slot, a fully busy pool with lower-priority voices
picks the first minimum-priority slot, and a fully busy pool with no
strictly lower priority fails. -/
theorem c2_witness :
    (∃ i, find_voice_slot [⟨true, 5⟩, ⟨false, 1⟩, ⟨false, 2⟩] 3 = some i ∧
      i < 3 ∧
      (([⟨true, 5⟩, ⟨false, 1⟩, ⟨false, 2⟩] : List SlotInfo).getD i SlotInfo.dflt).active = false ∧
      ∀ j, j < i →
        (([⟨true, 5⟩, ⟨false, 1⟩, ⟨false, 2⟩] : List SlotInfo).getD j SlotInfo.dflt).active = true) ∧
    (∃ i, find_voice_slot [⟨true, 5⟩, ⟨true, 2⟩, ⟨true, 2⟩] 4 = some i ∧
      i < 3 ∧
      (([⟨true, 5⟩, ⟨true, 2⟩, ⟨true, 2⟩] : List SlotInfo).getD i SlotInfo.dflt).priority < 4 ∧
      (∀ j, j < 3 →
        (([⟨true, 5⟩, ⟨true, 2⟩, ⟨true, 2⟩] : List SlotInfo).getD i SlotInfo.dflt).priority ≤
          (([⟨true, 5⟩, ⟨true, 2⟩, ⟨true, 2⟩] : List SlotInfo).getD j SlotInfo.dflt).priority) ∧
      ∀ j, j < i →
        (([⟨true, 5⟩, ⟨true, 2⟩, ⟨true, 2⟩] : List SlotInfo).getD i SlotInfo.dflt).priority <
          (([⟨true, 5⟩, ⟨true, 2⟩, ⟨true, 2⟩] : List SlotInfo).getD j SlotInfo.dflt).priority) ∧
    find_voice_slot [⟨true, 5⟩, ⟨true, 4⟩] 4 = none := by
  refine ⟨?_, ?_, ?_⟩
  · exact (c2_find_voice_slot_spec [⟨true, 5⟩, ⟨false, 1⟩, ⟨false, 2⟩] 3).1
      ⟨1, by norm_num, by decide⟩
  · simpa using (c2_find_voice_slot_spec [⟨true, 5⟩, ⟨true, 2⟩, ⟨true, 2⟩] 4).2.1
      (by decide) ⟨1, by norm_num, by decide⟩
  · exact (c2_find_voice_slot_spec [⟨true, 5⟩, ⟨true, 4⟩] 4).2.2
      (by decide) (by decide)

--=============================================================================
-- C4: handle generation counter
--=============================================================================

/-- Counterexample to C4: with 8 voice slots, the generation-1 handle
for slot 0 differs from the generation-2 handle minted when the slot is
reallocated, yet with the slot active again the stale handle still
resolves to slot 0 — `I_PicoSound_VoicePlaying` reports the new sound
as playing and `I_PicoSound_StopVoice` would stop it.  Stale handles
are not detected. -/
theorem c4_counterexample :
    make_handle 8 1 0 ≠ make_handle 8 2 0 ∧
    handle_to_voice 8 (make_handle 8 1 0) (fun _ => true) = some 0 ∧
    handle_to_voice 8 (make_handle 8 2 0) (fun _ => true) = some 0 ∧
    voicePlaying 8 (make_handle 8 1 0) (fun _ => true) = true := by
  refine ⟨by decide, ?_, ?_, ?_⟩ <;> rfl

/-- C4 amended: the handle does embed a generation (`next_handle % 10000`),
but `handle_to_voice` ignores it — it decodes `(handle - 1) mod
NUM_SOUND_CHANNELS` and checks only the slot's active flag, so any two
handles minted for the same slot resolve identically, regardless of
generation. -/
theorem c4_handle_generation_ignored (numChannels gen gen' slot : Nat)
    (hs : slot < numChannels) (active : Nat → Bool) :
    handle_to_voice numChannels (make_handle numChannels gen slot) active =
      (if active slot then some slot else none) ∧
    handle_to_voice numChannels (make_handle numChannels gen slot) active =
      handle_to_voice numChannels (make_handle numChannels gen' slot) active := by
  have key : ∀ g : Nat,
      handle_to_voice numChannels (make_handle numChannels g slot) active =
        (if active slot then some slot else none) := by
    intro g
    have h1 : ¬ (make_handle numChannels g slot ≤ 0) := by
      unfold make_handle
      exact not_le.mpr (by exact_mod_cast Nat.succ_pos ((g % 10000) * numChannels + slot))
    have h2 : (make_handle numChannels g slot - 1).toNat % numChannels = slot := by
      unfold make_handle
      have ht : ∀ M : Nat, (((M + 1 : Nat) : Int) - 1).toNat = M := by intro M; omega
      rw [ht ((g % 10000) * numChannels + slot),
        Nat.add_comm ((g % 10000) * numChannels) slot,
        Nat.add_mul_mod_self_right, Nat.mod_eq_of_lt hs]
    unfold handle_to_voice
    rw [if_neg h1, h2]
  exact ⟨key gen, (key gen).trans (key gen').symm⟩

/-- Witness for the amended C4 at a concrete pool. -/
theorem c4_witness :
    handle_to_voice 8 (make_handle 8 3 2) (fun _ => true) = some 2 ∧
    handle_to_voice 8 (make_handle 8 3 2) (fun _ => true) =
      handle_to_voice 8 (make_handle 8 7 2) (fun _ => true) := by
  have h := c4_handle_generation_ignored 8 3 7 2 (by norm_num) (fun _ => true)
  exact ⟨h.1.trans (by simp), h.2⟩

--=============================================================================
-- C9: full callback ring drops the newest entry
--=============================================================================

/-- C9: `queue_callback` on a full ring (advanced tail would meet the
head) returns the queue unchanged — entries, head and tail all as
before — and, being a total function, never blocks. -/
theorem c9_queue_full_drops_newest (q : CBQueue) (v : Nat)
    (h : (q.tail + 1) % maxPendingCallbacks = q.head) :
    queue_callback q v = q := by
  simp [queue_callback, h]

/-- Witness for C9: a concrete full 32-entry ring is left untouched. -/
theorem c9_witness :
    (31 + 1) % maxPendingCallbacks = 0 ∧
    queue_callback ⟨List.replicate 32 0, 0, 31⟩ 5 =
      ⟨List.replicate 32 0, 0, 31⟩ :=
  ⟨by decide, c9_queue_full_drops_newest ⟨List.replicate 32 0, 0, 31⟩ 5 (by decide)⟩

end MurmDuke
